import Mathlib

/-!
Shallow embedding of `src/package_github_upload.py`, a packaging script that
stages selected run directories, copies auxiliary files, captures an optional
environment snapshot, and writes a deterministic manifest.  Filesystem paths
are modelled as lists of name components, the filesystem as explicit lists of
directories and files, and the SHA-256 primitive and external shell commands
as parameters (the script uses both as black boxes).
-/

namespace PGU

/-- A filesystem path, as its list of name components.  An absolute path such
as `/a/b` carries a leading empty component, so that `asPosix` renders it
with a leading slash exactly as `PurePath.as_posix` does. -/
abbrev Path := List String

/-- `PurePath.as_posix`: the components joined by forward slashes. -/
def asPosix (p : Path) : String := String.intercalate "/" p

/-- `PurePath.name`: the final component (empty for the empty path). -/
def lastName (p : Path) : String := p.getLastD ""

/-- Membership of a character in a glob character-class body, with `a-b`
ranges as in `fnmatch.translate`; a trailing `-` is literal. -/
def inClass : List Char → Char → Bool
  | [], _ => false
  | a :: '-' :: b :: rest, c => (a ≤ c && c ≤ b) || inClass rest c
  | a :: rest, c => decide (a = c) || inClass rest c

/-- One unit of a glob pattern: `*`, `?`, a character class (with negation
flag and body), or a literal character. -/
inductive GlobTok where
  | star : GlobTok
  | anyc : GlobTok
  | cls (neg : Bool) (body : List Char) : GlobTok
  | lit (c : Char) : GlobTok
deriving DecidableEq

/-- A raw pattern character outside a class: `*` and `?` are wildcards,
everything else literal. -/
def rawTok (c : Char) : GlobTok :=
  if c = '*' then GlobTok.star else if c = '?' then GlobTok.anyc else GlobTok.lit c

/-- When a `[` turns out to be unclosed, `fnmatch.translate` keeps it literal
and reads the characters after it as ordinary pattern text; none of them can
open a class (no `]` remains), so they are all wildcards or literals. -/
def recoverToks (neg lead : Bool) (accRev : List Char) : List GlobTok :=
  (((if neg then ['!'] else []) ++ (if lead then [']'] else [])) ++ accRev.reverse).map rawTok

/-- Parser state: scanning ordinary pattern text, or inside a `[...]` class
(negation seen, leading literal `]` seen, body so far reversed). -/
inductive PMode where
  | norm : PMode
  | cls (neg : Bool) (lead : Bool) (accRev : List Char) : PMode

/-- Tokenise a glob pattern as `fnmatch.translate` reads it: `[` starts a
class, `[!` negates, a `]` directly after `[` or `[!` is a literal body
character, the first later `]` closes the class, and a `[` with no closing
`]` is a literal character. -/
def parseGlobGo : PMode → List Char → List GlobTok
  | PMode.norm, [] => []
  | PMode.norm, '[' :: ps =>
      (match ps with
       | '!' :: ']' :: t => parseGlobGo (PMode.cls true true []) t
       | '!' :: t => parseGlobGo (PMode.cls true false []) t
       | ']' :: t => parseGlobGo (PMode.cls false true []) t
       | t => parseGlobGo (PMode.cls false false []) t)
  | PMode.norm, c :: ps => rawTok c :: parseGlobGo PMode.norm ps
  | PMode.cls neg lead accRev, [] => GlobTok.lit '[' :: recoverToks neg lead accRev
  | PMode.cls neg lead accRev, ']' :: t =>
      GlobTok.cls neg ((if lead then [']'] else []) ++ accRev.reverse) :: parseGlobGo PMode.norm t
  | PMode.cls neg lead accRev, c :: t => parseGlobGo (PMode.cls neg lead (c :: accRev)) t

/-- Match a tokenised glob against a string: `star` consumes any suffix
split (the `.*` of the translated regex), `anyc` one character, a class one
character tested against its body, a literal itself; the whole string must
be consumed. -/
def matchToks : List GlobTok → List Char → Bool
  | [], s => s.isEmpty
  | GlobTok.star :: ts, s => (s.tails).any (fun suf => matchToks ts suf)
  | GlobTok.anyc :: ts, s =>
      (match s with
       | [] => false
       | _ :: cs => matchToks ts cs)
  | GlobTok.cls neg body :: ts, s =>
      (match s with
       | [] => false
       | c :: cs => (neg != inClass body c) && matchToks ts cs)
  | GlobTok.lit a :: ts, s =>
      (match s with
       | [] => false
       | c :: cs => decide (a = c) && matchToks ts cs)

/-- `fnmatch.fnmatch name pat`. -/
def fnmatch (nm pat : String) : Bool := matchToks (parseGlobGo PMode.norm pat.data) nm.data

/-- `matches_any` (src line 102): a path matches a pattern list when its bare
name matches some pattern, or its slash-joined form does. -/
def matchesAny (p : Path) (patterns : List String) : Bool :=
  patterns.any (fun pat => fnmatch (lastName p) pat)
    || patterns.any (fun pat => fnmatch (asPosix p) pat)

/-- `INCLUDE_PATTERNS` (src line 36). -/
def INCLUDE_PATTERNS : List String :=
  ["*.yaml", "*.input.yaml", "*.updated.yaml", "*.paramnames", "*.covmat",
   "*.progress", "*.checkpoint", "*.txt", "*.A.txt", "*.B.txt"]

/-- `EXCLUDE_PATTERNS` (src line 48). -/
def EXCLUDE_PATTERNS : List String :=
  ["*.log", "*.tmp", "*.bak", "*.npy", "*.npz", "*.pkl", "*.pickle", "*.hdf5",
   "*.h5", "*.dat", "*.fits", "*.pdf", "*.png", "*.jpg", "*.jpeg", "*.gif",
   "__pycache__/*", ".ipynb_checkpoints/*"]

/-- The filter applied by `copy_run_dir` (src lines 157-160), generalised over
the two pattern lists: a file is copied when it does not match the exclude
list (checked first, `continue`) and does match the include list. -/
def runFilesToCopy (excl incl : List String) (files : List Path) : List Path :=
  files.filter (fun f => !matchesAny f excl && matchesAny f incl)

/-- The whitespace characters `str.strip` and `str.split` treat as blanks. -/
def pyWs (c : Char) : Bool :=
  c = ' ' || c = '\t' || c = '\n' || c = '\r' || c = '\x0b' || c = '\x0c'

/-- `str.strip()`: drop leading and trailing whitespace. -/
def pyStrip (l : List Char) : List Char :=
  ((l.dropWhile pyWs).reverse.dropWhile pyWs).reverse

/-- Whether `key` is an initial segment of `s`. -/
def startsWithL : List Char → List Char → Bool
  | [], _ => true
  | _ :: _, [] => false
  | k :: ks, c :: cs => decide (k = c) && startsWithL ks cs

/-- Python `key in s`: substring containment. -/
def containsSub (key : List Char) : List Char → Bool
  | [] => key.isEmpty
  | c :: cs => startsWithL key (c :: cs) || containsSub key cs

/-- The part of `s` after the first occurrence of `key`
(`s.split(key, 1)[1]`), or `none` when `key` does not occur. -/
def afterFirst (key : List Char) : List Char → Option (List Char)
  | [] => if key.isEmpty then some [] else none
  | c :: cs =>
      if startsWithL key (c :: cs) then some ((c :: cs).drop key.length)
      else afterFirst key cs

/-- The characters that end a line for `str.splitlines` (besides `\r\n`). -/
def isLineBreak (c : Char) : Bool :=
  c = '\n' || c = '\r' || c = '\x0b' || c = '\x0c' || c = '\x1c' || c = '\x1d'
    || c = '\x1e' || c = '\x85' || c = '\u2028' || c = '\u2029'

/-- Accumulator loop of `str.splitlines`: `\r\n` counts as one break, and a
trailing break yields no empty final line. -/
def splitlinesGo (cur : List Char) : List Char → List (List Char)
  | [] => if cur.isEmpty then [] else [cur.reverse]
  | '\r' :: '\n' :: rest => cur.reverse :: splitlinesGo [] rest
  | c :: rest =>
      if isLineBreak c then cur.reverse :: splitlinesGo [] rest
      else splitlinesGo (c :: cur) rest

/-- `str.splitlines()`. -/
def pySplitlines (s : String) : List (List Char) := splitlinesGo [] s.data

/-- Accumulator loop of `str.split` with a one-character separator. -/
def splitOnCharGo (sep : Char) (cur : List Char) : List Char → List (List Char)
  | [] => [cur.reverse]
  | c :: rest =>
      if c = sep then cur.reverse :: splitOnCharGo sep [] rest
      else splitOnCharGo sep (c :: cur) rest

/-- `s.split("/")`, the reading of a slashed string as path components. -/
def splitSlash (s : String) : List String :=
  (splitOnCharGo '/' [] s.data).map (fun l => String.mk l)

/-- The key `_extract_packages_path_from_grep` scans for. -/
def pkgKey : List Char := "packages_path".data

/-- The quoted-or-bare tail handling of `_extract_packages_path_from_grep`
(src lines 287-291): a stripped value starting with a quote that recurs is
cut at the closing quote; otherwise the first whitespace-delimited token is
taken (empty input stays empty). -/
def quoteOrToken (tail : List Char) : List Char :=
  match tail with
  | [] => []
  | q :: rest =>
      if (q = '\'' || q = '"') && containsSub [q] rest then
        rest.takeWhile (fun c => !decide (c = q))
      else (tail.dropWhile pyWs).takeWhile (fun c => !pyWs c)

/-- One line of `_extract_packages_path_from_grep`: skip lines without the
key, split after the key, require a colon, strip, unquote or tokenise, and
yield the value when non-empty (src lines 278-293). -/
def lineExtract (line : List Char) : Option (List Char) :=
  match afterFirst pkgKey line with
  | none => none
  | some parts =>
      match afterFirst [':'] parts with
      | none => none
      | some tl =>
          let tail := quoteOrToken (pyStrip tl)
          if tail.isEmpty then none else some tail

/-- The loop of `_extract_packages_path_from_grep`: first line that yields a
value wins. -/
def extractFromLines : List (List Char) → Option (List Char)
  | [] => none
  | l :: ls =>
      match lineExtract l with
      | some v => some v
      | none => extractFromLines ls

/-- `_extract_packages_path_from_grep` (src line 272). -/
def extractPackagesPath (s : String) : Option String :=
  (extractFromLines (pySplitlines s)).map (fun l => String.mk l)

/-- The run-list file parsing of `main` (src lines 603-606): split lines,
strip, drop blanks and `#`-comments. -/
def parseRunsFile (s : String) : List String :=
  (pySplitlines s).filterMap (fun ln =>
    let t := pyStrip ln
    if t.isEmpty then none
    else if decide (t.headD ' ' = '#') then none
    else some (String.mk t))

/-- Strict lexicographic comparison of strings by code point, as Python
compares `str` values. -/
def strLtB : List Char → List Char → Bool
  | [], [] => false
  | [], _ :: _ => true
  | _ :: _, [] => false
  | a :: as, b :: bs => if a = b then strLtB as bs else decide (a < b)

/-- Non-strict lexicographic comparison of strings by code point. -/
def strLeB : List Char → List Char → Bool
  | [], _ => true
  | _ :: _, [] => false
  | a :: as, b :: bs => if a = b then strLeB as bs else decide (a < b)

/-- Python `str` less-or-equal, as `sorted` with a string key orders it. -/
def pyStrLe (x y : String) : Bool := strLeB x.data y.data

/-- Ordering of `pathlib` paths (`sorted(candidates)`): lexicographic on the
component tuples, strings by code point. -/
def pathLeB : Path → Path → Bool
  | [], _ => true
  | _ :: _, [] => false
  | a :: as, b :: bs => if a = b then pathLeB as bs else strLtB a.data b.data

/-- UTF-8 encoding of one unicode scalar value. -/
def utf8Char (c : Char) : List Nat :=
  let n := c.toNat
  if n < 128 then [n]
  else if n < 2048 then [192 + n / 64, 128 + n % 64]
  else if n < 65536 then [224 + n / 4096, 128 + (n / 64) % 64, 128 + n % 64]
  else [240 + n / 262144, 128 + (n / 4096) % 64, 128 + (n / 64) % 64, 128 + n % 64]

/-- `s.encode("utf-8")`, as the list of byte values. -/
def utf8Encode (s : String) : List Nat :=
  s.data.foldr (fun c acc => utf8Char c ++ acc) []

/-- The byte size a file of text `content` has on disk (`stat().st_size`). -/
def fileSize (content : String) : Nat := (utf8Encode content).length

/-- `sha256_file` / `_sha256`: the digest of a file text, with the SHA-256
primitive abstracted as the parameter `hash` over the file bytes. -/
def fileHash (hash : List Nat → String) (content : String) : String :=
  hash (utf8Encode content)

/-- The filesystem: a listing of directories and of files with their text
contents.  Enumeration order of `iterdir`/`rglob` is the listing order. -/
structure FS where
  dirs : List Path
  files : List (Path × String)
deriving DecidableEq

/-- `Path.is_dir`. -/
def isDir (fs : FS) (p : Path) : Bool := fs.dirs.any (fun d => decide (d = p))

/-- `Path.is_file`. -/
def isFile (fs : FS) (p : Path) : Bool := fs.files.any (fun e => decide (e.1 = p))

/-- `Path.exists`: a file or a directory. -/
def existsPath (fs : FS) (p : Path) : Bool := isFile fs p || isDir fs p

/-- `Path.read_text`. -/
def readFile (fs : FS) (p : Path) : Option String :=
  (fs.files.find? (fun e => decide (e.1 = p))).map (fun e => e.2)

/-- `Path.write_text` / `shutil.copy2` target effect: the path now holds
exactly `content`. -/
def writeFile (fs : FS) (p : Path) (content : String) : FS :=
  { fs with files := (p, content) :: fs.files.filter (fun e => !decide (e.1 = p)) }

/-- `Path.mkdir(parents=True, exist_ok=True)`: the directory and every
ancestor exist afterwards. -/
def mkdirP (fs : FS) (p : Path) : FS :=
  { fs with dirs := p.inits.filter (fun d => !fs.dirs.any (fun d2 => decide (d2 = d))) ++ fs.dirs }

/-- Whether `root` is an initial segment of `p` (so `p` lies at or under the
directory `root`). -/
def isPrefB : Path → Path → Bool
  | [], _ => true
  | _ :: _, [] => false
  | a :: as, b :: bs => decide (a = b) && isPrefB as bs

/-- `shutil.rmtree`: remove the directory and everything beneath it. -/
def rmtree (fs : FS) (p : Path) : FS :=
  { dirs := fs.dirs.filter (fun d => !isPrefB p d),
    files := fs.files.filter (fun e => !isPrefB p e.1) }

/-- The error a Python exception escaping `main` carries. -/
inductive PyErr where
  | fileExists (p : Path)
deriving DecidableEq

/-- `ensure_empty_dir` (src line 114): an existing output without `force`
raises `FileExistsError` before anything is removed; with `force` the tree
is removed and recreated; a fresh path is simply created. -/
def ensureEmptyDir (fs : FS) (p : Path) (force : Bool) : Except PyErr FS :=
  if existsPath fs p then
    if !force then Except.error (PyErr.fileExists p)
    else Except.ok (mkdirP (rmtree fs p) p)
  else Except.ok (mkdirP fs p)

/-- Every entry of the filesystem, directories first. -/
def entriesList (fs : FS) : List Path := fs.dirs ++ fs.files.map (fun e => e.1)

/-- Whether `e` is a direct child of directory `d`. -/
def isChildOf (d e : Path) : Bool := decide (e ≠ []) && decide (e.dropLast = d)

/-- `d.glob(pat)`: the direct children of `d` (files or directories) whose
name matches the pattern. -/
def globNames (fs : FS) (d : Path) (pat : String) : List Path :=
  (entriesList fs).filter (fun e => isChildOf d e && fnmatch (lastName e) pat)

/-- The numbered-chain-segment test of `detect_run_dirs` (src line 145):
`.1.txt` … `.4.txt` as a substring of the entry name. -/
def hasChainMark (nm : String) : Bool :=
  containsSub ".1.txt".data nm.data || containsSub ".2.txt".data nm.data
    || containsSub ".3.txt".data nm.data || containsSub ".4.txt".data nm.data

/-- `detect_run_dirs` (src line 136): a child directory of `base` qualifies
when it has a `*.yaml` glob hit and a chain hit (a numbered `.N.txt` name,
or — the fallback-positive — any `*.txt` glob hit at all); qualifiers are
returned sorted as `pathlib` paths. -/
def detectRunDirs (fs : FS) (base : Path) : List Path :=
  let candidates := (entriesList fs).filter (fun d =>
    isChildOf base d && isDir fs d &&
      (let yamls := globNames fs d "*.yaml"
       let txts := globNames fs d "*.txt"
       (!yamls.isEmpty) &&
         (txts.any (fun t => hasChainMark (lastName t)) || !txts.isEmpty)))
  List.insertionSort (fun a b => pathLeB a b = true) candidates

/-- All entries strictly below `root`. -/
def isStrictUnder (root p : Path) : Bool :=
  isPrefB root p && decide (root.length < p.length)

/-- `root.rglob(nm)` for a plain name: every entry below `root` whose final
component is `nm`, in listing order. -/
def rglobNamed (fs : FS) (root : Path) (nm : String) : List Path :=
  (entriesList fs).filter (fun e => isStrictUnder root e && decide (lastName e = nm))

/-- The fixed candidate subdirectories `_find_class_dir` probes, in order
(src lines 305-313). -/
def classCandidates (pp : Path) : List Path :=
  [pp ++ ["code", "class_public"], pp ++ ["code", "CLASS"], pp ++ ["code", "class"],
   pp ++ ["code", "classy"], pp ++ ["class_public"], pp ++ ["CLASS"], pp ++ ["classy"]]

/-- The candidate loop of `_find_class_dir` (src lines 315-320), including
the marker check whose two branches both return the candidate. -/
def findCandLoop (fs : FS) : List Path → Option Path
  | [] => none
  | c :: rest =>
      if existsPath fs c && isDir fs c then
        if existsPath fs (c ++ ["main", "class.c"]) || existsPath fs (c ++ ["include", "class.h"]) then
          some c
        else some c
      else findCandLoop fs rest

/-- The recursive fallback of `_find_class_dir` (src lines 323-328): the
parent of the first directory named `main` under `pp` containing
`class.c`. -/
def classFallback (fs : FS) (pp : Path) : Option Path :=
  ((rglobNamed fs pp "main").find?
      (fun p => isDir fs p && existsPath fs (p ++ ["class.c"]))).map (fun p => p.dropLast)

/-- `_find_class_dir` (src line 297). -/
def findClassDir (fs : FS) (pp : Path) : Option Path :=
  if !existsPath fs pp then none
  else
    match findCandLoop fs (classCandidates pp) with
    | some c => some c
    | none => classFallback fs pp

/-- The candidate relative files of `_write_class_fingerprint`
(src lines 347-356). -/
def fingerprintCandidateStrs : List String :=
  ["main/class.c", "include/common.h", "include/background.h",
   "source/background.c", "Makefile", "python/setup.py", "pyproject.toml",
   "setup.py"]

/-- The existence test of the fingerprint candidate loop (src line 365). -/
def fpCandIsFile (fs : FS) (classDir : Path) (rel : String) : Bool :=
  existsPath fs (classDir ++ splitSlash rel) && isFile fs (classDir ++ splitSlash rel)

/-- One digest line of the fingerprint (src line 367): digest, byte size,
relative path. -/
def fpCandLine (hash : List Nat → String) (fs : FS) (classDir : Path) (rel : String) : String :=
  let content := (readFile fs (classDir ++ splitSlash rel)).getD ""
  fileHash hash content ++ "  " ++ toString (fileSize content) ++ "  " ++ rel

/-- One digest line per candidate relative file that exists
(src lines 363-367). -/
def fpDigestLines (hash : List Nat → String) (fs : FS) (classDir : Path) : List String :=
  fingerprintCandidateStrs.filterMap (fun rel =>
    if fpCandIsFile fs classDir rel then some (fpCandLine hash fs classDir rel) else none)

/-- The sorted relative listing of every file under `classDir`
(src line 371). -/
def treeFileListing (fs : FS) (classDir : Path) : List String :=
  List.insertionSort (fun a b => pyStrLe a b = true)
    ((fs.files.map (fun e => e.1)).filterMap (fun p =>
      if isStrictUnder classDir p then some (asPosix (p.drop classDir.length)) else none))

/-- The newline-joined listing blob the fingerprint fallback hashes
(src line 372). -/
def fpBlob (fs : FS) (classDir : Path) : String :=
  String.intercalate "\n" (treeFileListing fs classDir) ++ "\n"

/-- The fallback line of the fingerprint (src line 373). -/
def fpFallbackLine (hash : List Nat → String) (fs : FS) (classDir : Path) : String :=
  hash (utf8Encode (fpBlob fs classDir)) ++ "  "
    ++ toString (utf8Encode (fpBlob fs classDir)).length ++ "  __file_list_fallback__"

/-- The lines `_write_class_fingerprint` writes (src line 343): two header
lines, a digest line per existing candidate, and the fallback line exactly
when no candidate existed. -/
def fingerprintLines (hash : List Nat → String) (fs : FS) (classDir : Path) : List String :=
  let digests := fpDigestLines hash fs classDir
  (["class_dir: " ++ asPosix classDir, "sha256  bytes  relpath"] ++ digests)
    ++ (if digests.isEmpty then [fpFallbackLine hash fs classDir] else [])

/-- The text of the fingerprint artifact. -/
def fingerprintText (hash : List Nat → String) (fs : FS) (classDir : Path) : String :=
  String.intercalate "\n" (fingerprintLines hash fs classDir) ++ "\n"

/-- `CopiedFile` (src line 83). -/
structure CopiedFile where
  src : Path
  dst : Path
  size : Nat
  sha256 : String
deriving DecidableEq

/-- `copy_file` (src line 122): create the parent, copy the bytes, and
record size and digest of the destination file. -/
def copyFile (hash : List Nat → String) (fs : FS) (src dst : Path) : FS × CopiedFile :=
  let content := (readFile fs src).getD ""
  let fs1 := writeFile (mkdirP fs dst.dropLast) dst content
  (fs1, { src := src, dst := dst, size := fileSize content, sha256 := fileHash hash content })

/-- `iter_run_files` (src line 130): every file under the run directory, in
listing order. -/
def iterRunFiles (fs : FS) (runDir : Path) : List Path :=
  (fs.files.map (fun e => e.1)).filter (fun p => isStrictUnder runDir p)

/-- The loop body of `copy_run_dir` (src lines 157-163): skip excluded
files, copy included ones to the mirrored relative path, appending the
record. -/
def copyStep (hash : List Nat → String) (runDir dstRunDir : Path)
    (st : FS × List CopiedFile) (f : Path) : FS × List CopiedFile :=
  if matchesAny f EXCLUDE_PATTERNS then st
  else if matchesAny f INCLUDE_PATTERNS then
    let rel := f.drop runDir.length
    let (fs2, r) := copyFile hash st.1 f (dstRunDir ++ rel)
    (fs2, st.2 ++ [r])
  else st

/-- `copy_run_dir` (src line 153): create the destination run directory and
copy every enumerated file that is not excluded and is included, mirroring
its path relative to the run directory. -/
def copyRunDir (hash : List Nat → String) (fs : FS) (runDir stagingRoot : Path) :
    FS × List CopiedFile :=
  let dstRunDir := stagingRoot ++ [lastName runDir]
  (iterRunFiles fs runDir).foldl (copyStep hash runDir dstRunDir) (mkdirP fs dstRunDir, [])

/-- One record line of the manifest (src line 176): digest, byte size and
the destination path relative to the staging root. -/
def manifestLine (root : Path) (c : CopiedFile) : String :=
  c.sha256 ++ "  " ++ toString c.size ++ "  " ++ asPosix (c.dst.drop root.length)

/-- The text `write_manifest` produces (src line 166): file count, byte
total, a blank line, a column header, then one line per record sorted by
destination path. -/
def manifestText (root : Path) (copied : List CopiedFile) : String :=
  let sortedRecords :=
    List.insertionSort (fun a b => pyStrLe (asPosix a.dst) (asPosix b.dst) = true) copied
  String.intercalate "\n"
    (["Total files: " ++ toString copied.length,
      "Total bytes: " ++ toString (copied.map (fun c => c.size)).sum,
      "",
      "sha256  bytes  path"] ++ sortedRecords.map (fun c => manifestLine root c)) ++ "\n"

/-- Python `repr` of a list of plain strings, as an f-string renders the
pattern-list constants. -/
def pyReprStrList (xs : List String) : String :=
  "[" ++ String.intercalate ", " (xs.map (fun x => "\x27" ++ x ++ "\x27")) ++ "]"

/-- `EXPLICIT_FILES` (src line 69). -/
def EXPLICIT_FILES : List String :=
  ["~/.bash_aliases", "~/paper_plots/generate_fig4_fig5_from_chains.py"]

/-- `FIG_CMD_SNIPPET` (src line 76). -/
def FIG_CMD_SNIPPET : String :=
  "python3 generate_fig4_fig5_from_chains.py \\\n  --tracker-dir ~/ace_global_fixed_desiDR2 \\\n  --lcdm-dir ~/lcdm_baseline_desiDR2 \\\n  --output-dir ~/paper_plots\n"

/-- The text `write_notes` produces (src line 180). -/
def notesText (base : Path) (runs : List String) (envSnapshot : Bool) : String :=
  "Packaging notes\n\nBase directory:\n  " ++ asPosix base
    ++ "\n\nRun directories included:\n  "
    ++ (if runs.isEmpty then "(auto-detected)" else String.intercalate ", " runs)
    ++ "\n\nIncluded patterns:\n  " ++ pyReprStrList INCLUDE_PATTERNS
    ++ "\n\nExcluded patterns:\n  " ++ pyReprStrList EXCLUDE_PATTERNS
    ++ "\n\nExplicit extra files:\n  " ++ pyReprStrList EXPLICIT_FILES
    ++ "\n\nEnvironment snapshot captured:\n  " ++ (if envSnapshot then "True" else "False")
    ++ "\n\nFigure command used in the paper (for README):\n" ++ FIG_CMD_SNIPPET ++ "\n"

/-- The `EXPLICIT_FILES` entries after `expanduser` against `home`. -/
def explicitSrcs (home : Path) : List Path :=
  [home ++ [".bash_aliases"], home ++ ["paper_plots", "generate_fig4_fig5_from_chains.py"]]

/-- The destination an explicit file is copied to (src lines 641-644):
`.bash_aliases` lands under `tools/`, the other file under
`paper_plots/` with its own name. -/
def explicitDst (out src : Path) : Path :=
  if lastName src = ".bash_aliases" then out ++ ["tools", ".bash_aliases"]
  else out ++ ["paper_plots", lastName src]

/-- The loop body of the explicit-file copy (src lines 635-646): a missing
entry is skipped with a warning. -/
def explicitStep (hash : List Nat → String) (out : Path)
    (st : FS × List CopiedFile) (src : Path) : FS × List CopiedFile :=
  if !(existsPath st.1 src && isFile st.1 src) then st
  else
    let (fs2, r) := copyFile hash st.1 src (explicitDst out src)
    (fs2, st.2 ++ [r])

/-- The explicit-file copy loop of `main` (src lines 635-646). -/
def copyExplicitFiles (hash : List Nat → String) (fs : FS) (out home : Path) :
    FS × List CopiedFile :=
  (explicitSrcs home).foldl (explicitStep hash out) (fs, [])

/-- `run_bash_to_file`'s content rule (src line 247): the captured combined
output of the command — the oracle `O` stands for the external shell — or a
placeholder when it printed nothing. -/
def capOut (O : String → String) (cmd : String) : String :=
  let o := O cmd
  if o.isEmpty then "(no output)\n" else o

/-- The recursive-grep command over the staging root (src line 474). -/
def grepCmd (out : Path) : String :=
  "cd \x27" ++ asPosix out ++ "\x27 && grep -R \"packages_path\" -n . 2>/dev/null || true"

/-- The Cobaya config candidate paths (src lines 431-434). -/
def cfgCandidates (home : Path) : List Path :=
  [home ++ [".cobaya", "config.yaml"], home ++ [".config", "cobaya", "config.yaml"]]

/-- Parse a path string into components (`/a/b` keeps a leading empty
component marking absoluteness). -/
def parsePath (s : String) : Path := splitSlash s

/-- `Path.is_absolute`. -/
def isAbsolute (p : Path) : Bool := decide (p.headD "x" = "")

/-- `os.path.expanduser` against the given home directory. -/
def expanduserS (home : Path) (s : String) : Path :=
  if s = "~" then home
  else if startsWithL ['~', '/'] s.data then home ++ parsePath (s.drop 2)
  else parsePath s

/-- The packages-path resolution of `capture_env_snapshot` (src lines
483-494): expanduser; a relative path is tried against home first, the
staging root second. -/
def resolvePackagesPath (fs : FS) (home out : Path) (extracted : String) : Path :=
  let p := expanduserS home extracted
  if !isAbsolute p then
    if existsPath fs (home ++ p) then home ++ p else out ++ p
  else p

/-- The artifact files the branch for an unresolved or non-existing
packages path writes (src lines 549-566). -/
def noPkgTail : List (String × String) :=
  [("packages_path_ls.txt",
    "packages_path could not be resolved from staged YAMLs.\nIf you used Cobaya externals, add packages_path: /path/to/cobaya_packages to YAML or share Cobaya config.\n"),
   ("class_dir_found.txt", "CLASS dir not searched because packages_path was not found.\n"),
   ("class_git_hash.txt", "(skipped: packages_path not found)\n"),
   ("class_fingerprint_sha256.txt", "(skipped: packages_path not found)\n")]

/-- The `(name, content)` pairs `capture_env_snapshot` writes under
`tools/env/`, in write order (src lines 378-566); every diagnostic command
output comes through the oracle `O`. -/
def envArtifacts (hash : List Nat → String) (O : String → String) (fs : FS)
    (home out : Path) : List (String × String) :=
  let grepText := capOut O (grepCmd out)
  let extracted := extractPackagesPath grepText
  let resolved := extracted.map (fun e => resolvePackagesPath fs home out e)
  let cfg := (cfgCandidates home).find? (fun p => existsPath fs p && isFile fs p)
  [("python_version.txt", capOut O "python -V"),
   ("python_path.txt", capOut O "which python"),
   ("python_executable.txt", capOut O "python -c \"import sys; print(sys.executable)\""),
   ("uname.txt", capOut O "uname -a"),
   ("platform.txt", capOut O "python -c \"import platform; print(platform.platform())\""),
   ("pip_version.txt", capOut O "python -m pip -V"),
   ("pip-freeze.txt", capOut O "python -m pip freeze"),
   ("pip-show-cobaya.txt", capOut O "python -m pip show cobaya 2>/dev/null || true"),
   ("cobaya_version.txt",
    capOut O "python -c \"import cobaya; print(\x27cobaya\x27, cobaya.__version__); print(\x27cobaya_file\x27, cobaya.__file__)\""),
   ("cobaya_cli.txt",
    capOut O "python -c \"import shutil; print(\x27cobaya_cli\x27, shutil.which(\x27cobaya\x27))\""),
   ("classy_present.txt",
    capOut O "python -c \"import importlib.util as u; print(\x27classy_found\x27, u.find_spec(\x27classy\x27) is not None)\""),
   ("cobaya_config_candidates.txt",
    capOut O "python -c \"from pathlib import Path; \\\nc=[Path(\x27~/.cobaya/config.yaml\x27).expanduser(), Path(\x27~/.config/cobaya/config.yaml\x27).expanduser()]; \\\nprint(\x27config_candidates:\x27); \\\n[print(str(p), \x27exists=\x27+str(p.exists())) for p in c]\" "),
   ("cobaya_config_path.txt",
    (match cfg with
     | some p => asPosix p
     | none => "(no config.yaml found)") ++ "\n"),
   ("cobaya_config_contents.txt",
    match cfg with
    | some p => (readFile fs p).getD ""
    | none => "(no config.yaml found)\n"),
   ("cobaya_packages_path_env.txt",
    capOut O "echo \"COBAYA_PACKAGES_PATH=$\x7bCOBAYA_PACKAGES_PATH:-\x27(not set)\x27\x7d\""),
   ("packages_path_grep.txt", grepText),
   ("packages_path_resolved.txt",
    (match resolved with
     | some p => asPosix p
     | none => "(not found in YAMLs)") ++ "\n")]
  ++ (match resolved with
      | some rp =>
          if existsPath fs rp then
            [("packages_path_ls.txt", capOut O ("ls -la \x27" ++ asPosix rp ++ "\x27"))]
            ++ (match findClassDir fs rp with
                | some cd =>
                    [("class_dir_found.txt",
                      (if existsPath fs cd then asPosix cd
                       else "(CLASS dir not found under packages_path)") ++ "\n"),
                     ("class_git_hash.txt",
                      capOut O ("git -C \x27" ++ asPosix cd
                        ++ "\x27 rev-parse HEAD 2>/dev/null || echo \x27(not a git repo)\x27")),
                     ("class_git_status.txt",
                      capOut O ("git -C \x27" ++ asPosix cd ++ "\x27 status --porcelain 2>/dev/null || true")),
                     ("class_dir_ls.txt", capOut O ("ls -la \x27" ++ asPosix cd ++ "\x27")),
                     ("class_fingerprint_sha256.txt", fingerprintText hash fs cd)]
                | none =>
                    [("class_dir_found.txt", "(CLASS dir not found under packages_path)\n"),
                     ("class_git_hash.txt", "(skipped: CLASS dir not found under packages_path)\n"),
                     ("class_fingerprint_sha256.txt", "(skipped: CLASS dir not found under packages_path)\n")])
          else noPkgTail
      | none => noPkgTail)

/-- `capture_env_snapshot` (src line 378): create `tools/env/` under the
staging root and write every artifact there. -/
def captureEnvSnapshot (hash : List Nat → String) (O : String → String) (fs : FS)
    (out home : Path) : FS :=
  let envDir := out ++ ["tools", "env"]
  (envArtifacts hash O fs home out).foldl
    (fun f nc => writeFile f (envDir ++ [nc.1]) nc.2) (mkdirP fs envDir)

/-- The parsed command line of `main` (src lines 570-587), after
`expanduser`/`resolve` of the path arguments.  The archive switches are
omitted: `make_archive` only adds a sibling archive file after everything
the claims observe has happened. -/
structure Args where
  base : Path
  out : Path
  runs : Option (List String)
  runsFromFile : Option Path
  autoDetectRuns : Bool
  force : Bool
  envSnapshot : Bool
deriving DecidableEq

/-- The usage errors of run selection, each reported with exit code 2. -/
inductive SelErr where
  | rfMissing : SelErr
  | noSelection : SelErr
  | runMissing : SelErr
deriving DecidableEq

/-- `base / r` for a run name from the command line or the run-list file. -/
def pathJoinStr (base : Path) (r : String) : Path := base ++ splitSlash r

/-- The manual-mode validation loop of `main` (src lines 619-624): each
named run must exist as a directory under `base`, else exit 2. -/
def validateRuns (fs : FS) (base : Path) : List String → Except SelErr (List Path)
  | [] => Except.ok []
  | r :: rest =>
      let d := pathJoinStr base r
      if !existsPath fs d || !isDir fs d then Except.error SelErr.runMissing
      else
        match validateRuns fs base rest with
        | Except.ok ds => Except.ok (d :: ds)
        | Except.error e => Except.error e

/-- The manual run-name list of `main` (src lines 597-609): the run-list
file is read first (missing file: exit 2), then a non-empty `--runs` list
overrides its contents. -/
def requestedRuns (fs : FS) (args : Args) : Except SelErr (List String) :=
  match
    (match args.runsFromFile with
     | some rf =>
         if existsPath fs rf then Except.ok (parseRunsFile ((readFile fs rf).getD ""))
         else Except.error SelErr.rfMissing
     | none => Except.ok ([] : List String)) with
  | Except.error e => Except.error e
  | Except.ok runs0 =>
      match args.runs with
      | some rs => Except.ok (if !rs.isEmpty then rs else runs0)
      | none => Except.ok runs0

/-- The run-selection logic of `main` (src lines 596-624):
`--auto-detect-runs` overrides the manual list with the detection result
(no emptiness check); otherwise an empty manual list is a usage error and
each name is validated against `base`. -/
def resolveRuns (fs : FS) (args : Args) : Except SelErr (List Path × List String) :=
  match requestedRuns fs args with
  | Except.error e => Except.error e
  | Except.ok runs1 =>
      if args.autoDetectRuns then
        let rds := detectRunDirs fs args.base
        Except.ok (rds, rds.map (fun d => lastName d))
      else if runs1.isEmpty then Except.error SelErr.noSelection
      else
        match validateRuns fs args.base runs1 with
        | Except.ok rds => Except.ok (rds, runs1)
        | Except.error e => Except.error e

/-- How a `main` invocation ends: a returned exit code, or an uncaught
exception (the Python process then dies with status 1 and a traceback). -/
inductive Outcome where
  | exitCode (n : Nat) : Outcome
  | uncaught (e : PyErr) : Outcome
deriving DecidableEq

/-- The run-directory copy loop body of `main` (src lines 631-632). -/
def runsStep (hash : List Nat → String) (out : Path)
    (st : FS × List CopiedFile) (d : Path) : FS × List CopiedFile :=
  let (fs2, cs) := copyRunDir hash st.1 d out
  (fs2, st.2 ++ cs)

/-- The copy phase of `main` (src lines 628-646): every run directory in
order, then the explicit files, accumulating the `copied` records. -/
def mainCopied (hash : List Nat → String) (fs1 : FS) (runDirs : List Path)
    (out home : Path) : FS × List CopiedFile :=
  let st := runDirs.foldl (runsStep hash out) (fs1, [])
  let (fs3, cs2) := copyExplicitFiles hash st.1 out home
  (fs3, st.2 ++ cs2)

/-- `main` (src line 569) up to its summary printing: base check, run
selection, `ensure_empty_dir`, run-directory copies, explicit-file copies,
optional environment snapshot, manifest, notes.  The resulting outcome and
filesystem. -/
def mainRun (hash : List Nat → String) (O : String → String) (home : Path)
    (args : Args) (fs : FS) : Outcome × FS :=
  if !existsPath fs args.base then (Outcome.exitCode 2, fs)
  else
    match resolveRuns fs args with
    | Except.error _ => (Outcome.exitCode 2, fs)
    | Except.ok (runDirs, runNames) =>
        match ensureEmptyDir fs args.out args.force with
        | Except.error e => (Outcome.uncaught e, fs)
        | Except.ok fs1 =>
            let st := mainCopied hash fs1 runDirs args.out home
            let fs4 :=
              if args.envSnapshot then captureEnvSnapshot hash O st.1 args.out home else st.1
            let fs5 := writeFile fs4 (args.out ++ ["MANIFEST.txt"]) (manifestText args.out st.2)
            let fs6 := writeFile fs5 (args.out ++ ["PACKAGING_NOTES.txt"])
              (notesText args.base runNames args.envSnapshot)
            (Outcome.exitCode 0, fs6)

/-- A stand-in for the SHA-256 primitive in concrete examples: digest
length-tagged. -/
def hashLen : List Nat → String := fun l => "h" ++ toString l.length

/-- A shell oracle whose every command prints nothing. -/
def oracleSilent : String → String := fun _ => ""

/-- A home directory for concrete examples. -/
def homeEx : Path := ["", "home", "u"]

/-- Example tree: under `/b`, run `d` has a YAML file and a chain segment,
`e` has only a YAML file, `f` has only a text file. -/
def fsEx : FS :=
  { dirs := [["", "b"], ["", "b", "d"], ["", "b", "e"], ["", "b", "f"]],
    files := [(["", "b", "d", "x.yaml"], "y"), (["", "b", "d", "c.1.txt"], "t"),
              (["", "b", "e", "x.yaml"], "y"), (["", "b", "f", "q.txt"], "t")] }

/-- An invocation against `fsEx` whose output directory `/b/e` already
exists and which does not authorise overwriting. -/
def argsExisting : Args :=
  { base := ["", "b"], out := ["", "b", "e"], runs := some ["d"], runsFromFile := none,
    autoDetectRuns := false, force := false, envSnapshot := false }

/-- Example tree for auto-detection with no qualifying run directory. -/
def fsNoRuns : FS := { dirs := [["", "b2"]], files := [] }

/-- An auto-detect invocation against `fsNoRuns` with a fresh output
directory. -/
def argsAutoEmpty : Args :=
  { base := ["", "b2"], out := ["", "o2"], runs := none, runsFromFile := none,
    autoDetectRuns := true, force := false, envSnapshot := false }

/-- An invocation passing both the auto-detect switch and the explicit run
list `["e"]` against `fsEx` (where detection yields `d` alone). -/
def argsAutoAndRuns : Args :=
  { base := ["", "b"], out := ["", "o3"], runs := some ["e"], runsFromFile := none,
    autoDetectRuns := true, force := false, envSnapshot := false }

/-- Example tree where `/b/d` holds a subdirectory named `a.yaml` and one
named `c.txt` but no file at all. -/
def fsYamlDirs : FS :=
  { dirs := [["", "b"], ["", "b", "d"], ["", "b", "d", "a.yaml"], ["", "b", "d", "c.txt"]],
    files := [] }

/-- Example tree where the packages path `/p` holds `code/classy` as a
directory with no marker file anywhere. -/
def fsClassy : FS :=
  { dirs := [["", "p"], ["", "p", "code"], ["", "p", "code", "classy"]], files := [] }

/-- Example tree whose class directory `/c` holds `Makefile` from the
fingerprint candidate list and one other file. -/
def fsMakefile : FS :=
  { dirs := [["", "c"]],
    files := [(["", "c", "Makefile"], "all:"), (["", "c", "notes.md"], "n")] }

/-- Example tree whose class directory `/c` holds three files, none from
the fingerprint candidate list. -/
def fsNoCand : FS :=
  { dirs := [["", "c"]],
    files := [(["", "c", "bb"], "2"), (["", "c", "aa"], "1"), (["", "c", "sub", "z"], "3")] }

/-- Two copy records with distinct destinations. -/
def recA : CopiedFile :=
  { src := ["", "b", "runA", "a.yaml"], dst := ["", "o", "runA", "a.yaml"], size := 1, sha256 := "hA" }

/-- A second record, destination sorting after `recA`. -/
def recB : CopiedFile :=
  { src := ["", "b", "runA", "c.1.txt"], dst := ["", "o", "runA", "c.1.txt"], size := 2, sha256 := "hB" }

/-- The end-to-end example tree: `/b/runA` holds `config.yaml`,
`chain.1.txt` and `ignore.log`. -/
def fsEndToEnd : FS :=
  { dirs := [["", "b"], ["", "b", "runA"]],
    files := [(["", "b", "runA", "config.yaml"], "cfg"),
              (["", "b", "runA", "chain.1.txt"], "0.1 0.2"),
              (["", "b", "runA", "ignore.log"], "log")] }

/-- A manual-mode invocation with no runs given at all. -/
def argsManualEmpty : Args :=
  { base := ["", "b2"], out := ["", "o2"], runs := none, runsFromFile := none,
    autoDetectRuns := false, force := false, envSnapshot := false }

/-- The end-to-end invocation: `--runs runA --out /stage`. -/
def argsEndToEnd : Args :=
  { base := ["", "b"], out := ["", "stage"], runs := some ["runA"], runsFromFile := none,
    autoDetectRuns := false, force := false, envSnapshot := false }

/-! Helper lemmas. -/

theorem readFile_writeFile_self (fs : FS) (p : Path) (c : String) :
    readFile (writeFile fs p c) p = some c := by
  simp [readFile, writeFile, List.find?]

theorem find?_filter_keep (p q : Path) (h : q ≠ p) :
    ∀ l : List (Path × String),
      (l.filter (fun e => !decide (e.1 = p))).find? (fun e => decide (e.1 = q))
        = l.find? (fun e => decide (e.1 = q)) := by
  intro l
  induction l with
  | nil => rfl
  | cons e rest ih =>
      by_cases hp : e.1 = p
      · have hq : ¬(e.1 = q) := fun hqq => h (hqq.symm.trans hp)
        rw [List.filter_cons_of_neg (by simpa using hp),
          List.find?_cons_of_neg _ (by simpa using hq), ih]
      · by_cases hq : e.1 = q
        · rw [List.filter_cons_of_pos (by simpa using hp),
            List.find?_cons_of_pos _ (by simpa using hq),
            List.find?_cons_of_pos _ (by simpa using hq)]
        · rw [List.filter_cons_of_pos (by simpa using hp),
            List.find?_cons_of_neg _ (by simpa using hq),
            List.find?_cons_of_neg _ (by simpa using hq), ih]

theorem readFile_writeFile_ne (fs : FS) (p q : Path) (c : String) (h : q ≠ p) :
    readFile (writeFile fs p c) q = readFile fs q := by
  simp only [readFile, writeFile]
  rw [List.find?_cons_of_neg _ (by simp only [decide_eq_true_eq]; exact fun hpq => h hpq.symm),
    find?_filter_keep p q h fs.files]

theorem readFile_mkdirP (fs : FS) (d p : Path) :
    readFile (mkdirP fs d) p = readFile fs p := rfl

theorem copyStep_fold_mem (hash : List Nat → String) (runDir dstRunDir : Path) :
    ∀ (fl : List Path) (st : FS × List CopiedFile) (r : CopiedFile),
      r ∈ (fl.foldl (copyStep hash runDir dstRunDir) st).2 →
      r ∈ st.2 ∨ ∃ f ∈ fl, matchesAny f EXCLUDE_PATTERNS = false
          ∧ matchesAny f INCLUDE_PATTERNS = true ∧ r.src = f
          ∧ r.dst = dstRunDir ++ f.drop runDir.length := by
  intro fl
  induction fl with
  | nil => intro st r h; exact Or.inl h
  | cons f fl ih =>
      intro st r h
      simp only [List.foldl_cons] at h
      rcases ih _ r h with h1 | h2
      · by_cases he : matchesAny f EXCLUDE_PATTERNS = true
        · rw [copyStep, if_pos he] at h1
          exact Or.inl h1
        · by_cases hi : matchesAny f INCLUDE_PATTERNS = true
          · rw [copyStep, if_neg he, if_pos hi] at h1
            simp only [copyFile, List.mem_append, List.mem_singleton] at h1
            rcases h1 with h1 | h1
            · exact Or.inl h1
            · refine Or.inr ⟨f, List.mem_cons_self f fl, eq_false_of_ne_true he, hi, ?_, ?_⟩
              · rw [h1]
              · rw [h1]
          · rw [copyStep, if_neg he, if_neg hi] at h1
            exact Or.inl h1
      · rcases h2 with ⟨g, hg, hprops⟩
        exact Or.inr ⟨g, List.mem_cons_of_mem f hg, hprops⟩

/-- C4.  For every file tree and every pair of pattern lists, a file
matching an exclude pattern (on bare name or slashed path) is never among
the files selected for copying — the exclude check runs first; and in
particular every record `copy_run_dir` produces has a source that matches
no pattern of `EXCLUDE_PATTERNS`. -/
theorem c4_exclude_priority (incl excl : List String) (files : List Path) (f : Path)
    (hf : matchesAny f excl = true) :
    f ∉ runFilesToCopy excl incl files
      ∧ ∀ (hash : List Nat → String) (fs : FS) (runDir out : Path) (r : CopiedFile),
          r ∈ (copyRunDir hash fs runDir out).2 →
            matchesAny r.src EXCLUDE_PATTERNS = false := by
  constructor
  · intro hmem
    rcases List.mem_filter.mp hmem with ⟨-, hpred⟩
    simp only [hf, Bool.not_true, Bool.false_and] at hpred
    cases hpred
  · intro hash fs runDir out r hr
    rw [copyRunDir] at hr
    rcases copyStep_fold_mem hash runDir (out ++ [lastName runDir])
        (iterRunFiles fs runDir) (mkdirP fs (out ++ [lastName runDir]), []) r hr with h1 | h2
    · cases h1
    · rcases h2 with ⟨g, -, hex, -, hsrc, -⟩
      rw [hsrc]
      exact hex

theorem c4_witness :
    matchesAny ["", "b", "runA", "x.log"] EXCLUDE_PATTERNS = true
      ∧ ["", "b", "runA", "x.log"]
          ∉ runFilesToCopy EXCLUDE_PATTERNS INCLUDE_PATTERNS [["", "b", "runA", "x.log"]] :=
  ⟨by decide,
   (c4_exclude_priority INCLUDE_PATTERNS EXCLUDE_PATTERNS [["", "b", "runA", "x.log"]]
     ["", "b", "runA", "x.log"] (by decide)).1⟩

/-- C6.  Path extraction from grep text: the two documented examples, and
the first-occurrence rule — scanning the concatenation of two line blocks
yields the first block's result when it has one. -/
theorem c6_extract_packages_path :
    extractPackagesPath "foo.yaml:5:packages_path: '/home/x/pkgs'" = some "/home/x/pkgs"
      ∧ extractPackagesPath "packages_path : /a/b" = some "/a/b"
      ∧ ∀ l1 l2 : List (List Char),
          extractFromLines (l1 ++ l2)
            = (match extractFromLines l1 with
               | some v => some v
               | none => extractFromLines l2) := by
  refine ⟨by decide, by decide, ?_⟩
  intro l1 l2
  induction l1 with
  | nil => simp [extractFromLines]
  | cons l ls ih =>
      simp only [List.cons_append, extractFromLines]
      cases lineExtract l
      · simpa using ih
      · simp

theorem findCandLoop_eq (fs : FS) :
    ∀ l : List Path, findCandLoop fs l = l.find? (fun c => existsPath fs c && isDir fs c) := by
  intro l
  induction l with
  | nil => rfl
  | cons c rest ih =>
      by_cases h : (existsPath fs c && isDir fs c) = true
      · rw [findCandLoop, if_pos h, ite_self,
          @List.find?_cons_of_pos _ (fun c => existsPath fs c && isDir fs c) c rest h]
      · rw [findCandLoop, if_neg h,
          @List.find?_cons_of_neg _ (fun c => existsPath fs c && isDir fs c) c rest h, ih]

/-- C7 (amended).  `_find_class_dir`: a missing packages path yields
`none`; the first candidate that exists as a directory is returned whether
or not it holds a marker file (the marker check's two branches coincide);
only when no candidate exists does the bounded recursive search run,
returning the parent of the first `main` directory containing `class.c`,
and `none` when there is none. -/
theorem c7_find_class_dir (fs : FS) (pp : Path) :
    (existsPath fs pp = false → findClassDir fs pp = none)
      ∧ (∀ c, (classCandidates pp).find? (fun c => existsPath fs c && isDir fs c) = some c →
          existsPath fs pp = true → findClassDir fs pp = some c)
      ∧ ((classCandidates pp).find? (fun c => existsPath fs c && isDir fs c) = none →
          existsPath fs pp = true → findClassDir fs pp = classFallback fs pp)
      ∧ (∀ m, (rglobNamed fs pp "main").find?
            (fun p => isDir fs p && existsPath fs (p ++ ["class.c"])) = some m →
          classFallback fs pp = some m.dropLast)
      ∧ ((rglobNamed fs pp "main").find?
            (fun p => isDir fs p && existsPath fs (p ++ ["class.c"])) = none →
          classFallback fs pp = none) := by
  refine ⟨?_, ?_, ?_, ?_, ?_⟩
  · intro h
    rw [findClassDir, h]
    rfl
  · intro c hc hpp
    rw [findClassDir, hpp, findCandLoop_eq, hc]
    rfl
  · intro hc hpp
    rw [findClassDir, hpp, findCandLoop_eq, hc]
    rfl
  · intro m hm
    rw [classFallback, hm]
    rfl
  · intro hm
    rw [classFallback, hm]
    rfl

theorem c7_counterexample :
    findClassDir fsClassy ["", "p"] = some ["", "p", "code", "classy"]
      ∧ existsPath fsClassy ["", "p", "code", "classy", "main", "class.c"] = false
      ∧ existsPath fsClassy ["", "p", "code", "classy", "include", "class.h"] = false
      ∧ (∀ q, isFile fsClassy q = false) :=
  ⟨by decide, by decide, by decide, fun q => by simp [isFile, fsClassy]⟩

theorem c7_witness :
    (classCandidates ["", "p"]).find?
        (fun c => existsPath fsClassy c && isDir fsClassy c) = some ["", "p", "code", "classy"]
      ∧ existsPath fsClassy ["", "p"] = true
      ∧ findClassDir fsClassy ["", "p"] = some ["", "p", "code", "classy"] :=
  ⟨by decide, by decide,
   (c7_find_class_dir fsClassy ["", "p"]).2.1 ["", "p", "code", "classy"] (by decide) (by decide)⟩

/-- C1 (amended).  When the output directory already exists and `--force`
is absent, `main` aborts before any destructive action — the filesystem is
returned unchanged — but by an uncaught `FileExistsError` from
`ensure_empty_dir` (the process dies with a traceback, exit status 1), not
by the exit-code-2 path used for the other validation errors. -/
theorem c1_existing_out_uncaught (hash : List Nat → String) (O : String → String)
    (home : Path) (args : Args) (fs : FS) (rds : List Path) (names : List String)
    (hbase : existsPath fs args.base = true)
    (hsel : resolveRuns fs args = Except.ok (rds, names))
    (hout : existsPath fs args.out = true)
    (hforce : args.force = false) :
    mainRun hash O home args fs = (Outcome.uncaught (PyErr.fileExists args.out), fs)
      ∧ mainRun hash O home args fs ≠ (Outcome.exitCode 2, fs) := by
  have hmain : mainRun hash O home args fs = (Outcome.uncaught (PyErr.fileExists args.out), fs) := by
    rw [mainRun, hbase]
    simp only [Bool.not_true, Bool.false_eq_true, if_false]
    rw [hsel, ensureEmptyDir, if_pos hout, hforce]
    rfl
  refine ⟨hmain, ?_⟩
  rw [hmain]
  intro hcontra
  cases hcontra

theorem c1_counterexample :
    existsPath fsEx argsExisting.out = true
      ∧ argsExisting.force = false
      ∧ (mainRun hashLen oracleSilent homeEx argsExisting fsEx).1
          = Outcome.uncaught (PyErr.fileExists ["", "b", "e"])
      ∧ (mainRun hashLen oracleSilent homeEx argsExisting fsEx).1 ≠ Outcome.exitCode 2
      ∧ (mainRun hashLen oracleSilent homeEx argsExisting fsEx).2 = fsEx :=
  ⟨by decide, rfl, by decide, by decide, by decide⟩

theorem c1_witness :
    existsPath fsEx argsExisting.base = true
      ∧ resolveRuns fsEx argsExisting = Except.ok ([["", "b", "d"]], ["d"])
      ∧ existsPath fsEx argsExisting.out = true
      ∧ mainRun hashLen oracleSilent homeEx argsExisting fsEx
          = (Outcome.uncaught (PyErr.fileExists argsExisting.out), fsEx) :=
  ⟨by decide, rfl, by decide,
   (c1_existing_out_uncaught hashLen oracleSilent homeEx argsExisting fsEx
     [["", "b", "d"]] ["d"] (by decide) rfl (by decide) rfl).1⟩

/-- C2 (amended).  Every run-selection usage error makes `main` return exit
code 2 with the filesystem untouched; and in the manual modes an empty
resolved run list is such an error.  (Under auto-detection an empty
detection result is not an error: see the counterexample.) -/
theorem c2_usage_error_before_mutation (hash : List Nat → String) (O : String → String)
    (home : Path) (args : Args) (fs : FS) :
    (∀ e, resolveRuns fs args = Except.error e →
        mainRun hash O home args fs = (Outcome.exitCode 2, fs))
      ∧ (args.autoDetectRuns = false → requestedRuns fs args = Except.ok [] →
          resolveRuns fs args = Except.error SelErr.noSelection) := by
  constructor
  · intro e he
    by_cases hb : existsPath fs args.base = true
    · rw [mainRun, hb]
      simp only [Bool.not_true, Bool.false_eq_true, if_false]
      rw [he]
    · rw [mainRun, eq_false_of_ne_true hb]
      rfl
  · intro hauto hreq
    rw [resolveRuns, hreq, hauto]
    rfl

theorem c2_counterexample :
    argsAutoEmpty.autoDetectRuns = true
      ∧ detectRunDirs fsNoRuns argsAutoEmpty.base = []
      ∧ isDir fsNoRuns argsAutoEmpty.out = false
      ∧ (mainRun hashLen oracleSilent homeEx argsAutoEmpty fsNoRuns).1 = Outcome.exitCode 0
      ∧ isDir (mainRun hashLen oracleSilent homeEx argsAutoEmpty fsNoRuns).2 argsAutoEmpty.out
          = true :=
  ⟨rfl, by decide, by decide, by decide, by decide⟩

theorem c2_witness :
    resolveRuns fsNoRuns argsManualEmpty = Except.error SelErr.noSelection
      ∧ mainRun hashLen oracleSilent homeEx argsManualEmpty fsNoRuns
          = (Outcome.exitCode 2, fsNoRuns) :=
  ⟨rfl,
   (c2_usage_error_before_mutation hashLen oracleSilent homeEx argsManualEmpty fsNoRuns).1
     SelErr.noSelection rfl⟩

/-- C3 (amended).  When the auto-detect switch is set (and the run-list
file, if any, is readable), the staged selection is exactly the
auto-detection result: the explicit `--runs` list is ignored — auto-detect
wins, not the explicit list. -/
theorem c3_auto_detect_wins (fs : FS) (args : Args)
    (hauto : args.autoDetectRuns = true)
    (hrf : args.runsFromFile = none
        ∨ ∃ rf, args.runsFromFile = some rf ∧ existsPath fs rf = true) :
    resolveRuns fs args
        = Except.ok (detectRunDirs fs args.base,
            (detectRunDirs fs args.base).map (fun d => lastName d))
      ∧ ∀ rs, resolveRuns fs { args with runs := rs } = resolveRuns fs args := by
  have hreq : ∀ rs, ∃ v, requestedRuns fs { args with runs := rs } = Except.ok v := by
    intro rs
    rcases hrf with hn | ⟨rf, hsome, hex⟩
    · rw [requestedRuns]
      simp only [hn]
      cases rs with
      | none => exact ⟨_, rfl⟩
      | some l => exact ⟨_, rfl⟩
    · rw [requestedRuns]
      simp only [hsome, hex, if_true]
      cases rs with
      | none => exact ⟨_, rfl⟩
      | some l => exact ⟨_, rfl⟩
  have hchar : ∀ rs, resolveRuns fs { args with runs := rs }
      = Except.ok (detectRunDirs fs args.base,
          (detectRunDirs fs args.base).map (fun d => lastName d)) := by
    intro rs
    rcases hreq rs with ⟨v, hv⟩
    rw [resolveRuns, hv]
    simp only [hauto]
    rfl
  have hself : { args with runs := args.runs } = args := rfl
  refine ⟨?_, ?_⟩
  · have := hchar args.runs
    rwa [hself] at this
  · intro rs
    rw [hchar rs, ← hself, hchar args.runs]

theorem c3_counterexample :
    argsAutoAndRuns.autoDetectRuns = true
      ∧ argsAutoAndRuns.runs = some ["e"]
      ∧ isDir fsEx (["", "b"] ++ ["e"]) = true
      ∧ resolveRuns fsEx argsAutoAndRuns = Except.ok ([["", "b", "d"]], ["d"])
      ∧ ¬ ("e" ∈ ["d"]) :=
  ⟨rfl, rfl, by decide, rfl, by decide⟩

theorem c3_witness :
    argsAutoAndRuns.autoDetectRuns = true
      ∧ resolveRuns fsEx argsAutoAndRuns
          = Except.ok (detectRunDirs fsEx argsAutoAndRuns.base,
              (detectRunDirs fsEx argsAutoAndRuns.base).map (fun d => lastName d))
      ∧ resolveRuns fsEx { argsAutoAndRuns with runs := some ["zzz"] }
          = resolveRuns fsEx argsAutoAndRuns :=
  ⟨rfl,
   (c3_auto_detect_wins fsEx argsAutoAndRuns rfl (Or.inl rfl)).1,
   (c3_auto_detect_wins fsEx argsAutoAndRuns rfl (Or.inl rfl)).2 (some ["zzz"])⟩

theorem stringDataInj (x y : String) (h : x.data = y.data) : x = y := by
  cases x
  cases y
  exact congrArg String.mk h

theorem strLtB_irrefl : ∀ x : List Char, strLtB x x = false := by
  intro x
  induction x with
  | nil => rfl
  | cons a as ih => simp [strLtB, ih]

theorem strLtB_trans : ∀ x y z : List Char,
    strLtB x y = true → strLtB y z = true → strLtB x z = true := by
  intro x
  induction x with
  | nil =>
      intro y z hxy hyz
      cases y with
      | nil => simp [strLtB] at hxy
      | cons b bs =>
          cases z with
          | nil => simp [strLtB] at hyz
          | cons c cs => rfl
  | cons a as ih =>
      intro y z hxy hyz
      cases y with
      | nil => simp [strLtB] at hxy
      | cons b bs =>
          cases z with
          | nil => simp [strLtB] at hyz
          | cons c cs =>
              simp only [strLtB] at hxy hyz ⊢
              by_cases hab : a = b
              · subst hab
                rw [if_pos rfl] at hxy
                by_cases hac : a = c
                · subst hac
                  rw [if_pos rfl] at hyz ⊢
                  exact ih bs cs hxy hyz
                · rw [if_neg hac] at hyz ⊢
                  exact hyz
              · rw [if_neg hab] at hxy
                by_cases hbc : b = c
                · subst hbc
                  rw [if_neg hab]
                  exact hxy
                · rw [if_neg hbc] at hyz
                  have hlt : a < c :=
                    lt_trans (of_decide_eq_true hxy) (of_decide_eq_true hyz)
                  rw [if_neg (ne_of_lt hlt)]
                  exact decide_eq_true hlt
  
theorem strLtB_total_ne : ∀ x y : List Char, x ≠ y →
    strLtB x y = true ∨ strLtB y x = true := by
  intro x
  induction x with
  | nil =>
      intro y hne
      cases y with
      | nil => exact absurd rfl hne
      | cons b bs => exact Or.inl rfl
  | cons a as ih =>
      intro y hne
      cases y with
      | nil => exact Or.inr rfl
      | cons b bs =>
          by_cases hab : a = b
          · subst hab
            have hne2 : as ≠ bs := fun h => hne (by rw [h])
            rcases ih bs hne2 with h | h
            · exact Or.inl (by simp [strLtB, h])
            · exact Or.inr (by simp [strLtB, h])
          · rcases lt_or_gt_of_ne hab with h | h
            · exact Or.inl (by simp [strLtB, hab, h])
            · exact Or.inr (by simp [strLtB, Ne.symm hab, h])

theorem pathLeB_total : ∀ a b : Path, pathLeB a b = true ∨ pathLeB b a = true := by
  intro a
  induction a with
  | nil => intro b; exact Or.inl rfl
  | cons x xs ih =>
      intro b
      cases b with
      | nil => exact Or.inr rfl
      | cons y ys =>
          by_cases hxy : x = y
          · subst hxy
            rcases ih ys with h | h
            · exact Or.inl (by simp [pathLeB, h])
            · exact Or.inr (by simp [pathLeB, h])
          · have hdata : x.data ≠ y.data := fun h => hxy (stringDataInj x y h)
            rcases strLtB_total_ne x.data y.data hdata with h | h
            · exact Or.inl (by simp [pathLeB, hxy, h])
            · exact Or.inr (by simp [pathLeB, Ne.symm hxy, h])

theorem pathLeB_trans : ∀ a b c : Path,
    pathLeB a b = true → pathLeB b c = true → pathLeB a c = true := by
  intro a
  induction a with
  | nil => intro b c hab hbc; rfl
  | cons x xs ih =>
      intro b c hab hbc
      cases b with
      | nil => simp [pathLeB] at hab
      | cons y ys =>
          cases c with
          | nil => simp [pathLeB] at hbc
          | cons z zs =>
              simp only [pathLeB] at hab hbc ⊢
              by_cases hxy : x = y
              · subst hxy
                rw [if_pos rfl] at hab
                by_cases hxz : x = z
                · subst hxz
                  rw [if_pos rfl] at hbc ⊢
                  exact ih ys zs hab hbc
                · rw [if_neg hxz] at hbc ⊢
                  exact hbc
              · rw [if_neg hxy] at hab
                by_cases hyz : y = z
                · subst hyz
                  rw [if_neg hxy]
                  exact hab
                · rw [if_neg hyz] at hbc
                  have hlt : strLtB x.data z.data = true := strLtB_trans _ _ _ hab hbc
                  by_cases hxz : x = z
                  · subst hxz
                    have : strLtB x.data x.data = true := hlt
                    rw [strLtB_irrefl] at this
                    cases this
                  · rw [if_neg hxz]
                    exact hlt

theorem orAnyNotEmpty (l : List Path) (h : Path → Bool) :
    (l.any h || !l.isEmpty) = !l.isEmpty := by
  cases l with
  | nil => rfl
  | cons a as => simp

theorem filter_nonempty_iff (q : Path → Bool) (l : List Path) :
    (!(l.filter q).isEmpty) = true ↔ ∃ x ∈ l, q x = true := by
  induction l with
  | nil => simp
  | cons a l ih =>
      by_cases hq : q a = true
      · simp [List.filter_cons, hq]
      · rw [List.filter_cons_of_neg (by simpa using hq)]
        rw [ih]
        constructor
        · intro ⟨x, hx, hqx⟩
          exact ⟨x, List.mem_cons_of_mem a hx, hqx⟩
        · intro ⟨x, hx, hqx⟩
          rcases List.mem_cons.mp hx with h | h
          · subst h; exact absurd hqx hq
          · exact ⟨x, h, hqx⟩

theorem globNonempty (fs : FS) (d : Path) (pat : String) :
    (!(globNames fs d pat).isEmpty) = true
      ↔ ∃ e ∈ entriesList fs, isChildOf d e = true ∧ fnmatch (lastName e) pat = true := by
  rw [globNames, filter_nonempty_iff]
  simp only [Bool.and_eq_true]

/-- C5 (amended).  Auto-detection selects a directory `p` exactly when it
is a child directory of `base` holding at least one directory entry — a
file or a subdirectory, `Path.glob` does not distinguish — matching
`*.yaml` and at least one matching `*.txt` (the numbered-chain test is
subsumed: any `*.txt` hit qualifies); the result is sorted in `pathlib`
path order, lexicographic by components. -/
theorem c5_detect_membership_order (fs : FS) (base : Path) :
    (∀ p, p ∈ detectRunDirs fs base ↔
        (p ∈ entriesList fs ∧ isChildOf base p = true ∧ isDir fs p = true
          ∧ (∃ e ∈ entriesList fs, isChildOf p e = true ∧ fnmatch (lastName e) "*.yaml" = true)
          ∧ (∃ e ∈ entriesList fs, isChildOf p e = true ∧ fnmatch (lastName e) "*.txt" = true)))
      ∧ List.Sorted (fun a b => pathLeB a b = true) (detectRunDirs fs base) := by
  constructor
  · intro p
    simp only [detectRunDirs]
    rw [(List.perm_insertionSort _ _).mem_iff, List.mem_filter]
    rw [orAnyNotEmpty]
    simp only [Bool.and_eq_true]
    rw [globNonempty, globNonempty]
    tauto
  · haveI ht : IsTotal Path (fun a b => pathLeB a b = true) := ⟨pathLeB_total⟩
    haveI htr : IsTrans Path (fun a b => pathLeB a b = true) :=
      ⟨fun a b c => pathLeB_trans a b c⟩
    simp only [detectRunDirs]
    exact List.sorted_insertionSort _ _

theorem c5_counterexample :
    detectRunDirs fsYamlDirs ["", "b"] = [["", "b", "d"]]
      ∧ fsYamlDirs.files = []
      ∧ (∀ q, isFile fsYamlDirs q = false)
      ∧ detectRunDirs fsEx ["", "b"] = [["", "b", "d"]] :=
  ⟨by decide, rfl, fun q => by simp [isFile, fsYamlDirs], by decide⟩

theorem filterMap_if_eq (p : String → Bool) (g : String → String) :
    ∀ l : List String,
      l.filterMap (fun a => if p a then some (g a) else none) = (l.filter p).map g := by
  intro l
  induction l with
  | nil => rfl
  | cons a l ih =>
      by_cases hp : p a = true
      · simp [List.filterMap_cons, List.filter_cons, hp, ih]
      · simp [List.filterMap_cons, List.filter_cons, hp, ih]

/-- C8.  The fingerprint artifact: after the two header lines it carries one
digest line per candidate relative file that exists; when no candidate
exists it carries exactly one fallback line whose digest is the hash of the
UTF-8 bytes of the sorted, newline-joined relative file listing; its body
is never empty.  (As a pure function of the tree it is deterministic by
construction.) -/
theorem c8_fingerprint_shape (hash : List Nat → String) (fs : FS) (classDir : Path) :
    (fpDigestLines hash fs classDir
        = (fingerprintCandidateStrs.filter (fun rel => fpCandIsFile fs classDir rel)).map
            (fun rel => fpCandLine hash fs classDir rel))
      ∧ (∀ rel ∈ fingerprintCandidateStrs, fpCandIsFile fs classDir rel = true →
          fpCandLine hash fs classDir rel ∈ fingerprintLines hash fs classDir)
      ∧ ((∀ rel ∈ fingerprintCandidateStrs, fpCandIsFile fs classDir rel = false) →
          (fingerprintLines hash fs classDir).drop 2
            = [hash (utf8Encode (fpBlob fs classDir)) ++ "  "
                ++ toString (utf8Encode (fpBlob fs classDir)).length
                ++ "  __file_list_fallback__"])
      ∧ (fingerprintLines hash fs classDir).length
          = 2 + max 1 ((fingerprintCandidateStrs.filter
              (fun rel => fpCandIsFile fs classDir rel)).length)
      ∧ (fingerprintLines hash fs classDir).drop 2 ≠ [] := by
  have hdig : fpDigestLines hash fs classDir
      = (fingerprintCandidateStrs.filter (fun rel => fpCandIsFile fs classDir rel)).map
          (fun rel => fpCandLine hash fs classDir rel) := by
    rw [fpDigestLines]
    exact filterMap_if_eq _ _ _
  have hdrop : (fingerprintLines hash fs classDir).drop 2
      = fpDigestLines hash fs classDir
        ++ (if (fpDigestLines hash fs classDir).isEmpty
            then [fpFallbackLine hash fs classDir] else []) := by
    simp [fingerprintLines]
  refine ⟨hdig, ?_, ?_, ?_, ?_⟩
  · intro rel hmem hcond
    have hin : fpCandLine hash fs classDir rel ∈ fpDigestLines hash fs classDir := by
      rw [hdig]
      exact List.mem_map_of_mem _ (List.mem_filter.mpr ⟨hmem, hcond⟩)
    simp only [fingerprintLines, List.mem_append]
    exact Or.inl (Or.inr hin)
  · intro hnone
    have hfil : fingerprintCandidateStrs.filter (fun rel => fpCandIsFile fs classDir rel) = [] :=
      List.filter_eq_nil_iff.mpr (fun rel hmem => by rw [hnone rel hmem]; simp)
    have hempty : fpDigestLines hash fs classDir = [] := by rw [hdig, hfil]; rfl
    rw [hdrop, hempty]
    rfl
  · rw [fingerprintLines]
    by_cases he : (fpDigestLines hash fs classDir).isEmpty = true
    · have h0 : fpDigestLines hash fs classDir = [] := by
        cases hd : fpDigestLines hash fs classDir
        · rfl
        · rw [hd] at he; cases he
      rw [h0] at hdig ⊢
      have : (fingerprintCandidateStrs.filter (fun rel => fpCandIsFile fs classDir rel)).length = 0 := by
        rcases hf : fingerprintCandidateStrs.filter (fun rel => fpCandIsFile fs classDir rel) with _ | ⟨a, l⟩
        · rfl
        · rw [hf] at hdig; cases hdig
      rw [this]
      simp
    · have hne : ¬ fpDigestLines hash fs classDir = [] := by
        intro h0; rw [h0] at he; exact he rfl
      rw [if_neg (by simpa using he)]
      have hlen : (fpDigestLines hash fs classDir).length
          = (fingerprintCandidateStrs.filter (fun rel => fpCandIsFile fs classDir rel)).length := by
        rw [hdig, List.length_map]
      have hpos : 0 < (fpDigestLines hash fs classDir).length :=
        List.length_pos.mpr hne
      simp only [List.append_nil, List.length_append, List.length_cons, List.length_nil]
      omega
  · rw [hdrop]
    by_cases he : (fpDigestLines hash fs classDir).isEmpty = true
    · rw [if_pos he]
      intro h
      have hcl := congrArg List.length h
      simp only [List.length_append, List.length_cons, List.length_nil] at hcl
      omega
    · rw [if_neg he]
      intro h
      rcases List.append_eq_nil.mp h with ⟨h1, -⟩
      rw [h1] at he
      exact he rfl

theorem c8_witness :
    fpCandIsFile fsMakefile ["", "c"] "Makefile" = true
      ∧ fpCandLine hashLen fsMakefile ["", "c"] "Makefile"
          ∈ fingerprintLines hashLen fsMakefile ["", "c"]
      ∧ (∀ rel ∈ fingerprintCandidateStrs, fpCandIsFile fsNoCand ["", "c"] rel = false)
      ∧ (fingerprintLines hashLen fsNoCand ["", "c"]).drop 2
          = [hashLen (utf8Encode (fpBlob fsNoCand ["", "c"])) ++ "  "
              ++ toString (utf8Encode (fpBlob fsNoCand ["", "c"])).length
              ++ "  __file_list_fallback__"]
      ∧ treeFileListing fsNoCand ["", "c"] = ["aa", "bb", "sub/z"] :=
  ⟨by decide,
   (c8_fingerprint_shape hashLen fsMakefile ["", "c"]).2.1 "Makefile" (by decide) (by decide),
   by decide,
   (c8_fingerprint_shape hashLen fsNoCand ["", "c"]).2.2.1 (by decide),
   by decide⟩

theorem strLeB_total : ∀ x y : List Char, strLeB x y = true ∨ strLeB y x = true := by
  intro x
  induction x with
  | nil => intro y; exact Or.inl rfl
  | cons a as ih =>
      intro y
      cases y with
      | nil => exact Or.inr rfl
      | cons b bs =>
          by_cases hab : a = b
          · subst hab
            rcases ih bs with h | h
            · exact Or.inl (by simp [strLeB, h])
            · exact Or.inr (by simp [strLeB, h])
          · rcases lt_or_gt_of_ne hab with h | h
            · exact Or.inl (by simp [strLeB, hab, h])
            · exact Or.inr (by simp [strLeB, Ne.symm hab, h])

theorem strLeB_trans : ∀ x y z : List Char,
    strLeB x y = true → strLeB y z = true → strLeB x z = true := by
  intro x
  induction x with
  | nil => intro y z hxy hyz; rfl
  | cons a as ih =>
      intro y z hxy hyz
      cases y with
      | nil => simp [strLeB] at hxy
      | cons b bs =>
          cases z with
          | nil => simp [strLeB] at hyz
          | cons c cs =>
              simp only [strLeB] at hxy hyz ⊢
              by_cases hab : a = b
              · subst hab
                rw [if_pos rfl] at hxy
                by_cases hac : a = c
                · subst hac
                  rw [if_pos rfl] at hyz ⊢
                  exact ih bs cs hxy hyz
                · rw [if_neg hac] at hyz ⊢
                  exact hyz
              · rw [if_neg hab] at hxy
                by_cases hbc : b = c
                · subst hbc
                  rw [if_neg hab]
                  exact hxy
                · rw [if_neg hbc] at hyz
                  have hlt : a < c :=
                    lt_trans (of_decide_eq_true hxy) (of_decide_eq_true hyz)
                  rw [if_neg (ne_of_lt hlt)]
                  exact decide_eq_true hlt

theorem strLeB_antisymm : ∀ x y : List Char,
    strLeB x y = true → strLeB y x = true → x = y := by
  intro x
  induction x with
  | nil =>
      intro y hxy hyx
      cases y with
      | nil => rfl
      | cons b bs => simp [strLeB] at hyx
  | cons a as ih =>
      intro y hxy hyx
      cases y with
      | nil => simp [strLeB] at hxy
      | cons b bs =>
          simp only [strLeB] at hxy hyx
          by_cases hab : a = b
          · subst hab
            rw [if_pos rfl] at hxy hyx
            rw [ih bs hxy hyx]
          · rw [if_neg hab] at hxy
            rw [if_neg (Ne.symm hab)] at hyx
            exact absurd (of_decide_eq_true hyx) (lt_asymm (of_decide_eq_true hxy))

theorem pyStrLe_antisymm (x y : String) (hxy : pyStrLe x y = true) (hyx : pyStrLe y x = true) :
    x = y :=
  stringDataInj x y (strLeB_antisymm x.data y.data hxy hyx)

theorem sortRecords_eq_of_perm (c1 c2 : List CopiedFile)
    (hperm : c1.Perm c2)
    (hnd : (c1.map (fun c => asPosix c.dst)).Nodup) :
    List.insertionSort (fun a b => pyStrLe (asPosix a.dst) (asPosix b.dst) = true) c1
      = List.insertionSort (fun a b => pyStrLe (asPosix a.dst) (asPosix b.dst) = true) c2 := by
  haveI htot : IsTotal CopiedFile (fun a b => pyStrLe (asPosix a.dst) (asPosix b.dst) = true) :=
    ⟨fun a b => strLeB_total (asPosix a.dst).data (asPosix b.dst).data⟩
  haveI htr : IsTrans CopiedFile (fun a b => pyStrLe (asPosix a.dst) (asPosix b.dst) = true) :=
    ⟨fun a b c => strLeB_trans (asPosix a.dst).data (asPosix b.dst).data (asPosix c.dst).data⟩
  have hp1 := List.perm_insertionSort
    (fun a b => pyStrLe (asPosix a.dst) (asPosix b.dst) = true) c1
  have hp2 := List.perm_insertionSort
    (fun a b => pyStrLe (asPosix a.dst) (asPosix b.dst) = true) c2
  have hp : (List.insertionSort (fun a b => pyStrLe (asPosix a.dst) (asPosix b.dst) = true) c1).Perm
      (List.insertionSort (fun a b => pyStrLe (asPosix a.dst) (asPosix b.dst) = true) c2) :=
    (hp1.trans hperm).trans hp2.symm
  have hs1 := List.sorted_insertionSort
    (fun a b => pyStrLe (asPosix a.dst) (asPosix b.dst) = true) c1
  have hs2 := List.sorted_insertionSort
    (fun a b => pyStrLe (asPosix a.dst) (asPosix b.dst) = true) c2
  have hnd1 : ((List.insertionSort (fun a b => pyStrLe (asPosix a.dst) (asPosix b.dst) = true) c1).map
      (fun c => asPosix c.dst)).Nodup :=
    ((hp1.map (fun c => asPosix c.dst)).nodup_iff).mpr hnd
  have hnd2 : ((List.insertionSort (fun a b => pyStrLe (asPosix a.dst) (asPosix b.dst) = true) c2).map
      (fun c => asPosix c.dst)).Nodup :=
    ((hp2.map (fun c => asPosix c.dst)).nodup_iff).mpr
      (((hperm.map (fun c => asPosix c.dst)).nodup_iff).mp hnd)
  have hpw1 : List.Pairwise (fun a b : CopiedFile => asPosix a.dst ≠ asPosix b.dst)
      (List.insertionSort (fun a b => pyStrLe (asPosix a.dst) (asPosix b.dst) = true) c1) :=
    List.pairwise_map.mp hnd1
  have hpw2 : List.Pairwise (fun a b : CopiedFile => asPosix a.dst ≠ asPosix b.dst)
      (List.insertionSort (fun a b => pyStrLe (asPosix a.dst) (asPosix b.dst) = true) c2) :=
    List.pairwise_map.mp hnd2
  haveI hanti : IsAntisymm CopiedFile
      (fun a b => pyStrLe (asPosix a.dst) (asPosix b.dst) = true ∧ asPosix a.dst ≠ asPosix b.dst) :=
    ⟨fun a b h1 h2 => absurd (pyStrLe_antisymm _ _ h1.1 h2.1) h1.2⟩
  exact List.eq_of_perm_of_sorted hp (hs1.and hpw1) (hs2.and hpw2)

/-- C9.  The manifest text is a pure function of the copy records and is
invariant under any permutation of them (records with distinct destination
paths): file count, byte total and the destination-sorted record lines do
not depend on the order files were copied in, and no field outside
(destination, size, digest) appears in a record line — so identical input
trees give byte-identical manifests. -/
theorem c9_manifest_perm_invariant (root : Path) (c1 c2 : List CopiedFile)
    (hperm : c1.Perm c2)
    (hnd : (c1.map (fun c => asPosix c.dst)).Nodup) :
    manifestText root c1 = manifestText root c2 := by
  have hlen : c1.length = c2.length := hperm.length_eq
  have hsum : (c1.map (fun c => c.size)).sum = (c2.map (fun c => c.size)).sum :=
    (hperm.map (fun c => c.size)).sum_eq
  have hsort := sortRecords_eq_of_perm c1 c2 hperm hnd
  simp only [manifestText, hlen, hsum, hsort]

theorem c9_witness :
    [recA, recB].Perm [recB, recA]
      ∧ ([recA, recB].map (fun c => asPosix c.dst)).Nodup
      ∧ manifestText ["", "o"] [recA, recB] = manifestText ["", "o"] [recB, recA] :=
  ⟨by decide, by decide,
   c9_manifest_perm_invariant ["", "o"] [recA, recB] [recB, recA] (by decide) (by decide)⟩

theorem isPrefB_append_self : ∀ base t : Path, isPrefB base (base ++ t) = true := by
  intro base
  induction base with
  | nil => intro t; rfl
  | cons a as ih => intro t; simp [isPrefB, ih]

theorem isPrefB_append_cancel : ∀ a b c : Path, isPrefB (a ++ b) (a ++ c) = isPrefB b c := by
  intro a
  induction a with
  | nil => intro b c; rfl
  | cons x xs ih => intro b c; simp [isPrefB, ih]

theorem explicitFold_mem (hash : List Nat → String) (out : Path) :
    ∀ (srcs : List Path) (st : FS × List CopiedFile) (r : CopiedFile),
      r ∈ (srcs.foldl (explicitStep hash out) st).2 →
      r ∈ st.2 ∨ ∃ src ∈ srcs, r.dst = explicitDst out src := by
  intro srcs
  induction srcs with
  | nil => intro st r h; exact Or.inl h
  | cons src srcs ih =>
      intro st r h
      simp only [List.foldl_cons] at h
      rcases ih _ r h with h1 | h2
      · by_cases hex : (!(existsPath st.1 src && isFile st.1 src)) = true
        · rw [explicitStep, if_pos hex] at h1
          exact Or.inl h1
        · rw [explicitStep, if_neg hex] at h1
          simp only [copyFile, List.mem_append, List.mem_singleton] at h1
          rcases h1 with h1 | h1
          · exact Or.inl h1
          · exact Or.inr ⟨src, List.mem_cons_self src srcs, by rw [h1]⟩
      · rcases h2 with ⟨g, hg, hdst⟩
        exact Or.inr ⟨g, List.mem_cons_of_mem src hg, hdst⟩

theorem copyRunDir_dst (hash : List Nat → String) (fs : FS) (runDir out : Path)
    (r : CopiedFile) (hr : r ∈ (copyRunDir hash fs runDir out).2) :
    ∃ rel, rel ≠ [] ∧ r.dst = (out ++ [lastName runDir]) ++ rel := by
  rw [copyRunDir] at hr
  rcases copyStep_fold_mem hash runDir (out ++ [lastName runDir])
      (iterRunFiles fs runDir) (mkdirP fs (out ++ [lastName runDir]), []) r hr with h1 | h2
  · cases h1
  · rcases h2 with ⟨f, hf, -, -, -, hdst⟩
    refine ⟨f.drop runDir.length, ?_, hdst⟩
    have hstrict : isStrictUnder runDir f = true := by
      rw [iterRunFiles] at hf
      exact (List.mem_filter.mp hf).2
    rw [isStrictUnder, Bool.and_eq_true] at hstrict
    have hlt : runDir.length < f.length := of_decide_eq_true hstrict.2
    intro h0
    rw [List.drop_eq_nil_iff] at h0
    omega

theorem runsFold_mem (hash : List Nat → String) (out : Path) :
    ∀ (rds : List Path) (st : FS × List CopiedFile) (r : CopiedFile),
      r ∈ (rds.foldl (runsStep hash out) st).2 →
      r ∈ st.2 ∨ ∃ d ∈ rds, ∃ rel, rel ≠ [] ∧ r.dst = (out ++ [lastName d]) ++ rel := by
  intro rds
  induction rds with
  | nil => intro st r h; exact Or.inl h
  | cons d rds ih =>
      intro st r h
      simp only [List.foldl_cons] at h
      rcases ih _ r h with h1 | h2
      · have hsplit : (runsStep hash out st d).2 = st.2 ++ (copyRunDir hash st.1 d out).2 := rfl
        rw [hsplit] at h1
        rcases List.mem_append.mp h1 with h1 | h1
        · exact Or.inl h1
        · rcases copyRunDir_dst hash st.1 d out r h1 with ⟨rel, hne, hdst⟩
          exact Or.inr ⟨d, List.mem_cons_self d rds, rel, hne, hdst⟩
      · rcases h2 with ⟨g, hg, hrest⟩
        exact Or.inr ⟨g, List.mem_cons_of_mem d hg, hrest⟩

theorem mainCopied_dst (hash : List Nat → String) (fs1 : FS) (rds : List Path)
    (out home : Path) (r : CopiedFile)
    (hr : r ∈ (mainCopied hash fs1 rds out home).2) :
    (∃ d ∈ rds, ∃ rel, rel ≠ [] ∧ r.dst = out ++ (lastName d :: rel))
      ∨ r.dst = out ++ ["tools", ".bash_aliases"]
      ∨ ∃ n, r.dst = out ++ ["paper_plots", n] := by
  have hsplit : (mainCopied hash fs1 rds out home).2
      = (rds.foldl (runsStep hash out) (fs1, [])).2
        ++ (copyExplicitFiles hash (rds.foldl (runsStep hash out) (fs1, [])).1 out home).2 := rfl
  rw [hsplit] at hr
  rcases List.mem_append.mp hr with h1 | h1
  · rcases runsFold_mem hash out rds (fs1, []) r h1 with h2 | h2
    · cases h2
    · rcases h2 with ⟨d, hd, rel, hne, hdst⟩
      refine Or.inl ⟨d, hd, rel, hne, ?_⟩
      rw [hdst, List.append_assoc]
      rfl
  · rw [copyExplicitFiles] at h1
    rcases explicitFold_mem hash out (explicitSrcs home)
        ((rds.foldl (runsStep hash out) (fs1, [])).1, []) r h1 with h2 | h2
    · cases h2
    · rcases h2 with ⟨src, hsrc, hdst⟩
      rcases List.mem_cons.mp hsrc with hs | hs
      · refine Or.inr (Or.inl ?_)
        rw [hdst, hs, explicitDst]
        rw [show lastName (home ++ [".bash_aliases"]) = ".bash_aliases" from
          List.getLastD_concat _ _ _]
        rw [if_pos rfl]
      · rcases List.mem_cons.mp hs with hs2 | hs2
        · refine Or.inr (Or.inr ⟨lastName src, ?_⟩)
          have hname : lastName (home ++ ["paper_plots", "generate_fig4_fig5_from_chains.py"])
              = "generate_fig4_fig5_from_chains.py" := by
            simp only [lastName]
            rw [show home ++ ["paper_plots", "generate_fig4_fig5_from_chains.py"]
                = (home ++ ["paper_plots"]) ++ ["generate_fig4_fig5_from_chains.py"] from
              (List.append_assoc home ["paper_plots"] ["generate_fig4_fig5_from_chains.py"]).symm]
            exact List.getLastD_concat _ _ _
          rw [hdst, hs2, explicitDst, hname]
          rw [if_neg (by decide)]
        · cases hs2

theorem writeAll_footprint (base : Path) :
    ∀ (l : List (String × String)) (fs : FS) (p : Path),
      readFile (l.foldl (fun f nc => writeFile f (base ++ [nc.1]) nc.2) fs) p ≠ readFile fs p →
      isPrefB base p = true := by
  intro l
  induction l with
  | nil => intro fs p h; exact absurd rfl h
  | cons nc l ih =>
      intro fs p h
      simp only [List.foldl_cons] at h
      by_cases hstep : readFile (writeFile fs (base ++ [nc.1]) nc.2) p = readFile fs p
      · rw [← hstep] at h
        exact ih _ p h
      · by_cases hp : p = base ++ [nc.1]
        · rw [hp]
          exact isPrefB_append_self base [nc.1]
        · exact absurd (readFile_writeFile_ne fs (base ++ [nc.1]) p nc.2 hp) hstep

theorem captureEnv_footprint (hash : List Nat → String) (O : String → String)
    (fs : FS) (out home : Path) (p : Path)
    (h : readFile (captureEnvSnapshot hash O fs out home) p ≠ readFile fs p) :
    isPrefB (out ++ ["tools", "env"]) p = true := by
  rw [captureEnvSnapshot] at h
  have hm : readFile (mkdirP fs (out ++ ["tools", "env"])) p = readFile fs p := rfl
  rw [← hm] at h
  exact writeAll_footprint (out ++ ["tools", "env"]) (envArtifacts hash O fs home out) _ p h

theorem mainRun_manifest_read (hash : List Nat → String) (O : String → String)
    (home : Path) (args : Args) (fs : FS) (rds : List Path) (names : List String) (fs1 : FS)
    (hbase : existsPath fs args.base = true)
    (hsel : resolveRuns fs args = Except.ok (rds, names))
    (hdir : ensureEmptyDir fs args.out args.force = Except.ok fs1) :
    readFile (mainRun hash O home args fs).2 (args.out ++ ["MANIFEST.txt"])
      = some (manifestText args.out (mainCopied hash fs1 rds args.out home).2) := by
  have hne : args.out ++ ["PACKAGING_NOTES.txt"] ≠ args.out ++ ["MANIFEST.txt"] := by
    intro h
    exact absurd (List.append_cancel_left h) (by decide)
  rw [mainRun, hbase]
  simp only [Bool.not_true, Bool.false_eq_true, if_false]
  rw [hsel, hdir]
  simp only []
  rw [readFile_writeFile_ne _ _ _ _ (fun h => absurd h.symm hne), readFile_writeFile_self]

/-- C10.  The manifest is generated from exactly the copy-phase records
(filtered run files plus found explicit files): its content is what
`write_manifest` renders from those records, it is unchanged by the
environment-snapshot switch, no record's staging-relative destination is
`MANIFEST.txt` or `PACKAGING_NOTES.txt`, the snapshot touches only files
under `tools/env/`, and (when no run directory is named `tools`) no record
destination lies under `tools/env/`. -/
theorem c10_manifest_entries (hash : List Nat → String) (O : String → String)
    (home : Path) (args : Args) (fs : FS) (rds : List Path) (names : List String) (fs1 : FS)
    (hbase : existsPath fs args.base = true)
    (hsel : resolveRuns fs args = Except.ok (rds, names))
    (hdir : ensureEmptyDir fs args.out args.force = Except.ok fs1) :
    readFile (mainRun hash O home args fs).2 (args.out ++ ["MANIFEST.txt"])
        = some (manifestText args.out (mainCopied hash fs1 rds args.out home).2)
      ∧ readFile (mainRun hash O home { args with envSnapshot := true } fs).2
            (args.out ++ ["MANIFEST.txt"])
          = readFile (mainRun hash O home { args with envSnapshot := false } fs).2
            (args.out ++ ["MANIFEST.txt"])
      ∧ (∀ r ∈ (mainCopied hash fs1 rds args.out home).2,
            r.dst.drop args.out.length ≠ ["MANIFEST.txt"]
              ∧ r.dst.drop args.out.length ≠ ["PACKAGING_NOTES.txt"])
      ∧ (∀ p, readFile (captureEnvSnapshot hash O fs1 args.out home) p ≠ readFile fs1 p →
            isPrefB (args.out ++ ["tools", "env"]) p = true)
      ∧ ((∀ d ∈ rds, lastName d ≠ "tools") →
            ∀ r ∈ (mainCopied hash fs1 rds args.out home).2,
              isPrefB (args.out ++ ["tools", "env"]) r.dst = false) := by
  have h1 := mainRun_manifest_read hash O home { args with envSnapshot := true } fs rds names fs1
    hbase hsel hdir
  have h2 := mainRun_manifest_read hash O home { args with envSnapshot := false } fs rds names fs1
    hbase hsel hdir
  refine ⟨mainRun_manifest_read hash O home args fs rds names fs1 hbase hsel hdir,
    h1.trans h2.symm, ?_, fun p h => captureEnv_footprint hash O fs1 args.out home p h, ?_⟩
  · intro r hr
    rcases mainCopied_dst hash fs1 rds args.out home r hr with h | h | h
    · rcases h with ⟨d, hd, rel, hne, hdst⟩
      rw [hdst, List.drop_left]
      constructor
      · intro heq
        have hl := congrArg List.length heq
        simp only [List.length_cons, List.length_nil] at hl
        exact hne (List.length_eq_zero.mp (by omega))
      · intro heq
        have hl := congrArg List.length heq
        simp only [List.length_cons, List.length_nil] at hl
        exact hne (List.length_eq_zero.mp (by omega))
    · rw [h, List.drop_left]
      exact ⟨by decide, by decide⟩
    · rcases h with ⟨n, hdst⟩
      rw [hdst, List.drop_left]
      constructor
      · intro heq
        have hl := congrArg List.length heq
        simp only [List.length_cons, List.length_nil] at hl
        omega
      · intro heq
        have hl := congrArg List.length heq
        simp only [List.length_cons, List.length_nil] at hl
        omega
  · intro htools r hr
    rcases mainCopied_dst hash fs1 rds args.out home r hr with h | h | h
    · rcases h with ⟨d, hd, rel, hne, hdst⟩
      rw [hdst, isPrefB_append_cancel]
      have hn : "tools" ≠ lastName d := fun heq => htools d hd heq.symm
      simp only [isPrefB]
      rw [decide_eq_false hn]
      rfl
    · rw [h, isPrefB_append_cancel]
      decide
    · rcases h with ⟨n, hdst⟩
      rw [hdst, isPrefB_append_cancel]
      simp only [isPrefB]
      rw [show (decide ("tools" = "paper_plots")) = false by decide]
      rfl

theorem c10_witness :
    existsPath fsEndToEnd argsEndToEnd.base = true
      ∧ resolveRuns fsEndToEnd argsEndToEnd = Except.ok ([["", "b", "runA"]], ["runA"])
      ∧ ensureEmptyDir fsEndToEnd argsEndToEnd.out argsEndToEnd.force
          = Except.ok (mkdirP fsEndToEnd ["", "stage"])
      ∧ readFile (mainRun hashLen oracleSilent homeEx argsEndToEnd fsEndToEnd).2
            (argsEndToEnd.out ++ ["MANIFEST.txt"])
          = some (manifestText argsEndToEnd.out
              (mainCopied hashLen (mkdirP fsEndToEnd ["", "stage"]) [["", "b", "runA"]]
                argsEndToEnd.out homeEx).2) :=
  ⟨by decide, rfl, rfl,
   (c10_manifest_entries hashLen oracleSilent homeEx argsEndToEnd fsEndToEnd
     [["", "b", "runA"]] ["runA"] (mkdirP fsEndToEnd ["", "stage"])
     (by decide) rfl rfl).1⟩

end PGU
